import Mathlib

/-!
Shallow embedding of the MDredd ranking engine and its session layer.

Numeric model: the float32 arrays of the source are embedded as lists of
rationals (exact arithmetic); the int32 frequency vector as a list of
naturals.  The JAX random stream is embedded as an abstract deterministic
generator (RngModel below): splitting a key and drawing a categorical index
are deterministic functions of the key, and a draw over n categories lands
in [0, n), which is all the source relies on.
-/

/-! ## Strength engine: moment-matching update (dredd/bdp/BDPVectorized.py MM,
    same formulas as dredd/bdp/BDPLoop.py MM) -/

/-- First-moment vector C of the moment-matching update, from BDPVectorized.MM
lines 74-81 (identical to BDPLoop.MM lines 88-95): C = alpha / alpha_0 with the
entries at i and j overwritten.  Indexing is total via getD; all uses are
in range. -/
def MMC (alpha_t : List ℚ) (i j : ℕ) (Y : ℚ) : List ℚ :=
  let alpha_0 := alpha_t.sum
  let ai := alpha_t.getD i 0
  let aj := alpha_t.getD j 0
  let C := alpha_t.map (fun a => a / alpha_0)
  let C_ij_denom := alpha_0 * (ai + aj + 1)
  (C.set i ((ai + (1 + Y) / 2) * (ai + aj) / C_ij_denom)).set j
    ((aj + (1 - Y) / 2) * (ai + aj) / C_ij_denom)

/-- Second-moment scalar D of the moment-matching update, from BDPVectorized.MM
lines 83-102 (identical to BDPLoop.MM lines 97-118). -/
def MMD (alpha_t : List ℚ) (i j : ℕ) (Y : ℚ) : ℚ :=
  let alpha_0 := alpha_t.sum
  let ai := alpha_t.getD i 0
  let aj := alpha_t.getD j 0
  let D_ij_denom := alpha_0 * (alpha_0 + 1) * (ai + aj + 2)
  let D_i := (ai + (1 + Y) / 2) * (ai + (3 + Y) / 2) * (ai + aj) / D_ij_denom
  let D_j := (aj + (1 - Y) / 2) * (aj + (3 - Y) / 2) * (ai + aj) / D_ij_denom
  let D_rest_denom := alpha_0 * (alpha_0 + 1)
  let D_all := (alpha_t.map (fun a => a * (a + 1))).sum / D_rest_denom
  let D_extra := (ai * (ai + 1) + aj * (aj + 1)) / D_rest_denom
  D_i + D_j + (D_all - D_extra)

/-- Denominator sum_ck_sq - D of the scale factor, BDPVectorized.MM lines
104-105 (BDPLoop.MM lines 120-122). -/
def mmDenom (alpha_t : List ℚ) (i j : ℕ) (Y : ℚ) : ℚ :=
  ((MMC alpha_t i j Y).map (fun c => c ^ 2)).sum - MMD alpha_t i j Y

/-- Scale factor alpha_0_prime = (D - 1) / (sum_ck_sq - D), BDPVectorized.MM
line 105 (BDPLoop.MM line 127). -/
def mmSprime (alpha_t : List ℚ) (i j : ℕ) (Y : ℚ) : ℚ :=
  (MMD alpha_t i j Y - 1) / mmDenom alpha_t i j Y

/-- BDPVectorized.MM (lines 69-108): the unconditional moment-matching update
alpha_prime = C * alpha_0_prime.  This version has no numeric guards. -/
def MM (alpha_t : List ℚ) (i j : ℕ) (Y : ℚ) : List ℚ :=
  (MMC alpha_t i j Y).map (fun c => c * mmSprime alpha_t i j Y)

/-- BDPLoop.MM (lines 79-132): same formulas, but guarded.  Returns alpha_t
unchanged when alpha_0 <= 0, when the absolute value of the denominator is
below 1e-14, or when the scale factor is not positive. -/
def loopMM (alpha_t : List ℚ) (i j : ℕ) (Y : ℚ) : List ℚ :=
  if alpha_t.sum ≤ 0 then alpha_t
  else if |mmDenom alpha_t i j Y| < 1 / 10 ^ 14 then alpha_t
  else if mmSprime alpha_t i j Y ≤ 0 then alpha_t
  else MM alpha_t i j Y

/-- BDPLoop.submit_comparison (lines 47-53): Y = +1 when is_right_win, else -1;
the loop engine state is just its alpha vector. -/
def loop_submit_comparison (alpha_t : List ℚ) (i j : ℕ) (is_right_win : Bool) : List ℚ :=
  let Y : ℚ := if is_right_win then 1 else -1
  loopMM alpha_t i j Y

/-! ## Strength engine state and operations (BDPVectorized) -/

/-- Deterministic model of the jax.random stream: split maps a key to a new
key and a subkey; choice draws a categorical index from a subkey given the
number of categories and the logits (the negated pair frequencies that feed
the softmax).  A draw over n > 0 categories always lands in [0, n), which is
the contract of jr.choice with a probability vector over n items. -/
structure RngModel where
  split : ℕ → ℕ × ℕ
  choice : ℕ → ℕ → List ℤ → ℕ
  choice_lt : ∀ k n l, 0 < n → choice k n l < n

/-- The mutable state of BDPVectorized: K, alpha_t, frequency, and the RNG key. -/
structure BDPState where
  K : ℕ
  alpha_t : List ℚ
  frequency : List ℕ
  key : ℕ
  deriving DecidableEq

/-- Fresh engine from the BDPVectorized field defaults: alpha all ones,
frequency all zeros, a caller-supplied key. -/
def freshEngine (K seed : ℕ) : BDPState :=
  { K := K, alpha_t := List.replicate K 1, frequency := List.replicate K 0, key := seed }

/-- Row-major upper-triangle index pairs, mirroring jnp.triu_indices(K, k=1):
(0,1), (0,2), ..., (0,K-1), (1,2), ... -/
def triuIndices (K : ℕ) : List (ℕ × ℕ) :=
  (List.range K).flatMap (fun i => (List.range (K - (i + 1))).map (fun d => (i, i + 1 + d)))

/-- One jnp-style in-place increment: frequency.at[i].add(1).  An out-of-range
index is dropped, as in a jax scatter-add. -/
def incAt (l : List ℕ) (i : ℕ) : List ℕ :=
  l.set i (l.getD i 0 + 1)

/-- BDPVectorized.get_next_pair (lines 54-67): compute the per-pair frequency
logits, split the key, draw a pair index from the softmax distribution
(abstracted into RngModel.choice, which receives the negated logits), and
increment the frequency of both endpoints. -/
def get_next_pair (R : RngModel) (s : BDPState) : (ℕ × ℕ) × BDPState :=
  let pairs := triuIndices s.K
  let pair_frequency : List ℤ :=
    pairs.map (fun p => (s.frequency.getD p.1 0 : ℤ) + (s.frequency.getD p.2 0 : ℤ))
  let ks := R.split s.key
  let NUM_PAIRS := s.K * (s.K - 1) / 2
  let next_idx := R.choice ks.2 NUM_PAIRS (pair_frequency.map (fun x => -x))
  let p := pairs.getD next_idx (0, 1)
  (p, { s with key := ks.1, frequency := incAt (incAt s.frequency p.1) p.2 })

/-- BDPVectorized.submit_comparison (lines 50-52): Y = +1 exactly when the
winner is the left index i, then overwrite alpha with the MM result. -/
def submit_comparison (s : BDPState) (i j winner : ℕ) : BDPState :=
  let Y : ℚ := if winner = i then 1 else -1
  { s with alpha_t := MM s.alpha_t i j Y }

/-! ## Spec-side moment-matching formulas (written from the there-specified
    C, D and scale expressions, for the refinement claim C1) -/

/-- Spec formula for the auxiliary vector C: C_k = alpha_k / S off i and j,
with the stated closed forms at i and j. -/
def specC (alpha : List ℚ) (i j : ℕ) (Y : ℚ) : List ℚ :=
  (List.range alpha.length).map (fun k =>
    let S := alpha.sum
    let ai := alpha.getD i 0
    let aj := alpha.getD j 0
    if k = i then (ai + (1 + Y) / 2) * (ai + aj) / (S * (ai + aj + 1))
    else if k = j then (aj + (1 - Y) / 2) * (ai + aj) / (S * (ai + aj + 1))
    else alpha.getD k 0 / S)

/-- Spec formula for the scalar D = D_i + D_j + (D_all - D_extra) with
D_denom2 = S (S+1) (alpha_i + alpha_j + 2). -/
def specD (alpha : List ℚ) (i j : ℕ) (Y : ℚ) : ℚ :=
  let S := alpha.sum
  let ai := alpha.getD i 0
  let aj := alpha.getD j 0
  let D_denom2 := S * (S + 1) * (ai + aj + 2)
  let D_i := (ai + (1 + Y) / 2) * (ai + (3 + Y) / 2) * (ai + aj) / D_denom2
  let D_j := (aj + (1 - Y) / 2) * (aj + (3 - Y) / 2) * (ai + aj) / D_denom2
  let D_all := (alpha.map (fun a => a * (a + 1))).sum / (S * (S + 1))
  let D_extra := (ai * (ai + 1) + aj * (aj + 1)) / (S * (S + 1))
  D_i + D_j + (D_all - D_extra)

/-- Spec formula for the updated alpha: alpha_k = C_k * Sprime with
Sprime = (D - 1) / (sum of C_k squared - D). -/
def specNewAlpha (alpha : List ℚ) (i j : ℕ) (Y : ℚ) : List ℚ :=
  let C := specC alpha i j Y
  let Sprime := (specD alpha i j Y - 1) / ((C.map (fun c => c ^ 2)).sum - specD alpha i j Y)
  C.map (fun c => c * Sprime)

/-! ## Helper lemmas about the C vector -/

theorem MMC_eq_specC (alpha : List ℚ) (i j : ℕ) (Y : ℚ)
    (hi : i < alpha.length) (hj : j < alpha.length) (hij : i ≠ j) :
    MMC alpha i j Y = specC alpha i j Y := by
  apply List.ext_getElem
  · simp [MMC, specC]
  · intro k hk hk'
    simp only [MMC, specC]
    rw [List.getElem_set, List.getElem_set, List.getElem_map, List.getElem_map, List.getElem_range]
    by_cases hki : k = i
    · subst hki
      simp [hij.symm, List.getD_eq_getElem?_getD, List.getElem?_eq_getElem hi,
        List.getElem?_eq_getElem hj]
    · by_cases hkj : k = j
      · subst hkj
        simp [hij.symm, List.getD_eq_getElem?_getD, List.getElem?_eq_getElem hi,
          List.getElem?_eq_getElem hj]
      · have hjk : ¬ j = k := fun h => hkj h.symm
        have hik : ¬ i = k := fun h => hki h.symm
        have hkl : k < alpha.length := by
          simpa [MMC] using hk
        simp [if_neg hjk, if_neg hik, if_neg hki, if_neg hkj,
          List.getD_eq_getElem?_getD, List.getElem?_eq_getElem hkl]

theorem MMD_eq_specD (alpha : List ℚ) (i j : ℕ) (Y : ℚ) :
    MMD alpha i j Y = specD alpha i j Y := rfl

/-- C1: for a strength state with positive alpha entries and a valid call
submit_comparison(i, j, winner), the engine sets Y = +1 exactly when
winner = i and replaces alpha by the spec moment-matching result: the
vector C scaled by Sprime = (D - 1) / (sum C_k^2 - D). -/
theorem C1_submit_matches_spec (s : BDPState) (i j winner : ℕ)
    (hK : s.alpha_t.length = s.K)
    (hpos : ∀ a ∈ s.alpha_t, 0 < a)
    (hi : i < s.K) (hj : j < s.K) (hij : i ≠ j)
    (hw : winner = i ∨ winner = j) :
    submit_comparison s i j winner =
      { s with alpha_t := specNewAlpha s.alpha_t i j (if winner = i then 1 else -1) } := by
  have hC := MMC_eq_specC s.alpha_t i j (if winner = i then 1 else -1)
    (hK ▸ hi) (hK ▸ hj) hij
  simp only [submit_comparison, specNewAlpha, MM, mmSprime, mmDenom, MMD_eq_specD, hC]

/-- Witness for C1 at the concrete fresh two-item engine, pair (0, 1),
winner 0. -/
theorem C1_submit_matches_spec_witness :
    submit_comparison (freshEngine 2 0) 0 1 0 =
      { freshEngine 2 0 with
          alpha_t := specNewAlpha (freshEngine 2 0).alpha_t 0 1 (if 0 = 0 then 1 else -1) } :=
  C1_submit_matches_spec (freshEngine 2 0) 0 1 0 (by decide) (by decide)
    (by decide) (by decide) (by decide) (Or.inl rfl)

/-! ## Pair-selection lemmas (C3) -/

theorem mem_triuIndices {K : ℕ} {p : ℕ × ℕ} (h : p ∈ triuIndices K) :
    p.1 < p.2 ∧ p.2 < K := by
  simp only [triuIndices, List.mem_flatMap, List.mem_map, List.mem_range] at h
  obtain ⟨i, hi, d, hd, rfl⟩ := h
  omega

theorem length_triuIndices (K : ℕ) : (triuIndices K).length = K * (K - 1) / 2 := by
  have h1 : (triuIndices K).length = ∑ i ∈ Finset.range K, (K - (i + 1)) := by
    simp only [triuIndices, List.length_flatMap, Function.comp_def, List.length_map,
      List.length_range]
    rfl
  have h2 : ∑ i ∈ Finset.range K, (K - (i + 1)) = ∑ i ∈ Finset.range K, i := by
    rw [← Finset.sum_range_reflect (fun j => j) K]
    exact Finset.sum_congr rfl (fun i hi => by simp at hi; omega)
  rw [h1, h2, Finset.sum_range_id]

theorem length_incAt (l : List ℕ) (i : ℕ) : (incAt l i).length = l.length :=
  List.length_set l i _

theorem sum_incAt (l : List ℕ) (i : ℕ) (h : i < l.length) :
    (incAt l i).sum = l.sum + 1 := by
  induction l generalizing i with
  | nil => simp at h
  | cons a t ih =>
    cases i with
    | zero => simp [incAt, List.getD_cons_zero]; omega
    | succ n =>
      have hstep : incAt (a :: t) (n + 1) = a :: incAt t n := by
        simp [incAt, List.getD_cons_succ]
      rw [hstep, List.sum_cons, ih n (by simpa using h), List.sum_cons]
      omega

theorem getD_incAt_self (l : List ℕ) (i : ℕ) (h : i < l.length) :
    (incAt l i).getD i 0 = l.getD i 0 + 1 := by
  simp [incAt, List.getD, List.getElem?_set_self, h]

theorem getD_incAt_ne (l : List ℕ) (i k : ℕ) (h : i ≠ k) :
    (incAt l i).getD k 0 = l.getD k 0 := by
  simp [incAt, List.getD, List.getElem?_set_ne h]

theorem get_next_pair_spec (R : RngModel) (s : BDPState) (h2 : 2 ≤ s.K)
    (hlen : s.frequency.length = s.K) :
    ((get_next_pair R s).1.1 < (get_next_pair R s).1.2 ∧ (get_next_pair R s).1.2 < s.K) ∧
    (get_next_pair R s).2.K = s.K ∧
    (get_next_pair R s).2.alpha_t = s.alpha_t ∧
    (get_next_pair R s).2.frequency.length = s.K ∧
    (get_next_pair R s).2.frequency.getD (get_next_pair R s).1.1 0
      = s.frequency.getD (get_next_pair R s).1.1 0 + 1 ∧
    (get_next_pair R s).2.frequency.getD (get_next_pair R s).1.2 0
      = s.frequency.getD (get_next_pair R s).1.2 0 + 1 ∧
    (∀ k, k ≠ (get_next_pair R s).1.1 → k ≠ (get_next_pair R s).1.2 →
      (get_next_pair R s).2.frequency.getD k 0 = s.frequency.getD k 0) ∧
    (get_next_pair R s).2.frequency.sum = s.frequency.sum + 2 := by
  have hnum : 0 < s.K * (s.K - 1) / 2 := by
    have hmul : 2 * 1 ≤ s.K * (s.K - 1) := Nat.mul_le_mul h2 (by omega)
    exact Nat.div_pos (by omega) (by norm_num)
  have hidx : R.choice (R.split s.key).2 (s.K * (s.K - 1) / 2)
      (((triuIndices s.K).map (fun p => (s.frequency.getD p.1 0 : ℤ)
        + (s.frequency.getD p.2 0 : ℤ))).map (fun x => -x)) < (triuIndices s.K).length := by
    rw [length_triuIndices]
    exact R.choice_lt _ _ _ hnum
  set idx := R.choice (R.split s.key).2 (s.K * (s.K - 1) / 2)
      (((triuIndices s.K).map (fun p => (s.frequency.getD p.1 0 : ℤ)
        + (s.frequency.getD p.2 0 : ℤ))).map (fun x => -x)) with hidxdef
  have hmem : (triuIndices s.K).getD idx (0, 1) ∈ triuIndices s.K := by
    rw [List.getD_eq_getElem?_getD, List.getElem?_eq_getElem hidx]
    exact List.getElem_mem hidx
  have hpair := mem_triuIndices hmem
  set p := (triuIndices s.K).getD idx (0, 1) with hpdef
  have hr : get_next_pair R s
      = (p, { s with key := (R.split s.key).1,
                     frequency := incAt (incAt s.frequency p.1) p.2 }) := rfl
  have hij : p.1 ≠ p.2 := Nat.ne_of_lt hpair.1
  have h1l : p.1 < s.frequency.length := by omega
  have h2l : p.2 < s.frequency.length := by omega
  have h2l' : p.2 < (incAt s.frequency p.1).length := by
    rw [length_incAt]; exact h2l
  refine ⟨⟨hpair.1, hpair.2⟩, rfl, rfl, ?_, ?_, ?_, ?_, ?_⟩
  · rw [hr]
    simp [length_incAt, hlen]
  · rw [hr]
    simp only
    rw [getD_incAt_ne _ _ _ (Ne.symm hij), getD_incAt_self _ _ h1l]
  · rw [hr]
    simp only
    rw [getD_incAt_self _ _ h2l', getD_incAt_ne _ _ _ hij]
  · intro k hk1 hk2
    have hfst : (get_next_pair R s).1 = p := by rw [hr]
    rw [hfst] at hk1 hk2
    rw [hr]
    simp only
    rw [getD_incAt_ne _ _ _ (Ne.symm hk2), getD_incAt_ne _ _ _ (Ne.symm hk1)]
  · rw [hr]
    simp only
    rw [sum_incAt _ _ h2l', sum_incAt _ _ h1l]

/-- Concrete executable instance of the RNG model, used in witnesses. -/
def natRng : RngModel where
  split k := (2 * k + 1, 2 * k + 2)
  choice k n _ := k % n
  choice_lt := fun k _ _ h => Nat.mod_lt k h

/-- n successive get_next_pair calls from a fresh engine. -/
def iterPairs (R : RngModel) (K seed : ℕ) : ℕ → BDPState
  | 0 => freshEngine K seed
  | n + 1 => (get_next_pair R (iterPairs R K seed n)).2

theorem iterPairs_invariant (R : RngModel) (K seed : ℕ) (hK : 2 ≤ K) (n : ℕ) :
    (iterPairs R K seed n).K = K ∧ (iterPairs R K seed n).frequency.length = K ∧
    (iterPairs R K seed n).frequency.sum = 2 * n := by
  induction n with
  | zero => simp [iterPairs, freshEngine]
  | succ m ih =>
    obtain ⟨hKm, hlm, hsm⟩ := ih
    have h2m : 2 ≤ (iterPairs R K seed m).K := by rw [hKm]; exact hK
    have hlm' : (iterPairs R K seed m).frequency.length = (iterPairs R K seed m).K := by
      rw [hKm, hlm]
    have hspec := get_next_pair_spec R (iterPairs R K seed m) h2m hlm'
    refine ⟨?_, ?_, ?_⟩
    · rw [iterPairs]
      rw [hspec.2.1, hKm]
    · rw [iterPairs]
      rw [hspec.2.2.2.1, hKm]
    · rw [iterPairs]
      rw [hspec.2.2.2.2.2.2.2, hsm]
      ring

/-- C3: with K >= 2 and the frequency-length invariant, get_next_pair returns a
pair (i, j) with i < j < K, increments frequency at i and at j by one, leaves
every other entry unchanged, and consequently after n calls from a fresh
engine the frequency total is 2n. -/
theorem C3_pair_range_and_frequency (R : RngModel) (s : BDPState)
    (h2 : 2 ≤ s.K) (hlen : s.frequency.length = s.K) :
    ((get_next_pair R s).1.1 < (get_next_pair R s).1.2 ∧ (get_next_pair R s).1.2 < s.K) ∧
    (get_next_pair R s).2.frequency.getD (get_next_pair R s).1.1 0
      = s.frequency.getD (get_next_pair R s).1.1 0 + 1 ∧
    (get_next_pair R s).2.frequency.getD (get_next_pair R s).1.2 0
      = s.frequency.getD (get_next_pair R s).1.2 0 + 1 ∧
    (∀ k, k ≠ (get_next_pair R s).1.1 → k ≠ (get_next_pair R s).1.2 →
      (get_next_pair R s).2.frequency.getD k 0 = s.frequency.getD k 0) ∧
    (∀ n K0 seed, 2 ≤ K0 → (iterPairs R K0 seed n).frequency.sum = 2 * n) := by
  have h := get_next_pair_spec R s h2 hlen
  exact ⟨h.1, h.2.2.2.2.1, h.2.2.2.2.2.1, h.2.2.2.2.2.2.1,
    fun n K0 seed hK0 => (iterPairs_invariant R K0 seed hK0 n).2.2⟩

/-- Witness for C3 at the concrete RNG model and the fresh two-item engine. -/
theorem C3_pair_range_and_frequency_witness :
    (((get_next_pair natRng (freshEngine 2 0)).1.1 < (get_next_pair natRng (freshEngine 2 0)).1.2 ∧
      (get_next_pair natRng (freshEngine 2 0)).1.2 < (freshEngine 2 0).K) ∧
     (get_next_pair natRng (freshEngine 2 0)).2.frequency.getD
        (get_next_pair natRng (freshEngine 2 0)).1.1 0
       = (freshEngine 2 0).frequency.getD (get_next_pair natRng (freshEngine 2 0)).1.1 0 + 1 ∧
     (get_next_pair natRng (freshEngine 2 0)).2.frequency.getD
        (get_next_pair natRng (freshEngine 2 0)).1.2 0
       = (freshEngine 2 0).frequency.getD (get_next_pair natRng (freshEngine 2 0)).1.2 0 + 1 ∧
     (∀ k, k ≠ (get_next_pair natRng (freshEngine 2 0)).1.1 →
        k ≠ (get_next_pair natRng (freshEngine 2 0)).1.2 →
        (get_next_pair natRng (freshEngine 2 0)).2.frequency.getD k 0
          = (freshEngine 2 0).frequency.getD k 0) ∧
     (∀ n K0 seed, 2 ≤ K0 → (iterPairs natRng K0 seed n).frequency.sum = 2 * n)) :=
  C3_pair_range_and_frequency natRng (freshEngine 2 0) (by decide) (by decide)

/-! ## Session layer: judge map, operation log, replay (app/adapters.py) -/

/-- Association-list model of the judge_map dict: judge uuid to the assigned
pair, stored as a list because the defaultdict can also hold an empty tuple. -/
abbrev Ledger := List (String × List ℕ)

def ledgerLookup : Ledger → String → Option (List ℕ)
  | [], _ => none
  | (k, v) :: rest, u => if k = u then some v else ledgerLookup rest u

def ledgerSet : Ledger → String → List ℕ → Ledger
  | [], u, v => [(u, v)]
  | (k, w) :: rest, u, v => if k = u then (u, v) :: rest else (k, w) :: ledgerSet rest u v

def ledgerErase : Ledger → String → Ledger
  | [], _ => []
  | (k, w) :: rest, u => if k = u then rest else (k, w) :: ledgerErase rest u

/-- An engine-level operation: one get_next_pair call (a pair issue for a
judge) or one submit_comparison call. -/
inductive EngineOp where
  | pairIssued (judge : String)
  | submitted (judge : String) (a b winner : ℕ)

/-- A row of the logs table: type get_pair with the requesting judge, or type
submit_pair with the submitted arguments (adapters.py log, lines 210-219). -/
inductive LogEvent where
  | getPairEv (judge : String)
  | submitPairEv (judge : String) (a b winner : ℕ)

/-- The log row written for an engine operation. -/
def logOf : EngineOp → LogEvent
  | EngineOp.pairIssued u => LogEvent.getPairEv u
  | EngineOp.submitted u a b w => LogEvent.submitPairEv u a b w

/-- Uninterrupted run: each operation calls the corresponding engine entry
point of BDPVectorized. -/
def runEngine (R : RngModel) (s : BDPState) : List EngineOp → BDPState
  | [] => s
  | EngineOp.pairIssued _ :: rest => runEngine R (get_next_pair R s).2 rest
  | EngineOp.submitted _ a b w :: rest => runEngine R (submit_comparison s a b w) rest

/-- LogAdapter.replay (adapters.py lines 221-247): for each logged event in
order, a get_pair row calls get_next_pair on the engine (the drawn pair is
stored in the judge map and otherwise discarded) and a submit_pair row calls
submit_comparison with the logged arguments and deletes the judge entry. -/
def replayLog (R : RngModel) (s : BDPState) (jm : Ledger) : List LogEvent → BDPState × Ledger
  | [] => (s, jm)
  | LogEvent.getPairEv u :: rest =>
      let r := get_next_pair R s
      replayLog R r.2 (ledgerSet jm u [r.1.1, r.1.2]) rest
  | LogEvent.submitPairEv u a b w :: rest =>
      replayLog R (submit_comparison s a b w) (ledgerErase jm u) rest

theorem replayLog_fst (R : RngModel) (ops : List EngineOp) :
    ∀ (s : BDPState) (jm : Ledger),
      (replayLog R s jm (ops.map logOf)).1 = runEngine R s ops := by
  induction ops with
  | nil => intro s jm; rfl
  | cons op rest ih =>
    intro s jm
    cases op with
    | pairIssued u => simp only [List.map_cons, logOf, replayLog, runEngine, ih]
    | submitted u a b w => simp only [List.map_cons, logOf, replayLog, runEngine, ih]

theorem runEngine_append (R : RngModel) (l1 l2 : List EngineOp) :
    ∀ s : BDPState, runEngine R s (l1 ++ l2) = runEngine R (runEngine R s l1) l2 := by
  induction l1 with
  | nil => intro s; rfl
  | cons op rest ih =>
    intro s
    cases op with
    | pairIssued u =>
      simp only [List.cons_append, runEngine]
      exact ih _
    | submitted u a b w =>
      simp only [List.cons_append, runEngine]
      exact ih _

/-- C2: restart equivalence of snapshot plus log replay.  For any sequence of
engine operations, each logged as it runs, and any snapshot point m: loading
the engine state as of operation m and replaying the logged tail (get_next_pair
for each logged pair request, submit_comparison for each logged submission)
yields exactly the state (alpha, frequency, and RNG key) of the uninterrupted
run. -/
theorem C2_restart_equivalence (R : RngModel) (s0 : BDPState) (jm : Ledger)
    (ops : List EngineOp) (m : ℕ) :
    (replayLog R (runEngine R s0 (ops.take m)) jm ((ops.drop m).map logOf)).1
      = runEngine R s0 ops := by
  rw [replayLog_fst, ← runEngine_append, List.take_append_drop]

/-! ## JudgingAPI methods (app/main.py) -/

/-- Errors raised by the JudgingAPI methods (app/exceptions.py); an internal
failure stands for any other exception surfaced as a 500. -/
inductive ApiErr where
  | notStarted
  | alreadyStarted
  | judgeDoesNotOwnPair
  | incorrectPairFormat
  | internalFailure
  deriving DecidableEq

/-- The in-memory state touched by the JudgingAPI methods: the enabled flag,
the engine, and the judge map held by the snapshot manager. -/
structure APIState where
  enabled : Bool
  bdp : BDPState
  judgeMap : Ledger
  deriving DecidableEq

/-- SnapshotAdapter.verify_judge_assignment (adapters.py lines 177-183):
membership of both submitted ids in the judge entry.  The judge_map is a
defaultdict over tuples, so looking up a missing judge inserts an empty tuple,
for which both membership tests are false. -/
def verify_judge_assignment (jm : Ledger) (uuid : String) (l r : ℕ) : Bool × Ledger :=
  match ledgerLookup jm uuid with
  | some entry => (entry.contains l && entry.contains r, jm)
  | none => (false, ledgerSet jm uuid [])

/-- JudgingAPI.get_pair (app/main.py lines 70-85): when not forced and the
judge has an entry, return it with no state change (unpacking a malformed
entry raises, surfaced as an internal failure); otherwise draw a new pair from
the engine and record it in the judge map. -/
def api_get_pair (R : RngModel) (st : APIState) (judge : String) (force : Bool) :
    Except ApiErr (ℕ × ℕ) × APIState :=
  if st.enabled = false then (Except.error ApiErr.notStarted, st)
  else
    let draw := fun (_ : Unit) =>
      let r := get_next_pair R st.bdp
      (Except.ok r.1,
        { st with bdp := r.2, judgeMap := ledgerSet st.judgeMap judge [r.1.1, r.1.2] })
    if force then draw ()
    else
      match ledgerLookup st.judgeMap judge with
      | some [i, j] => (Except.ok (i, j), st)
      | some _ => (Except.error ApiErr.internalFailure, st)
      | none => draw ()

/-- JudgingAPI.submit_pair (app/main.py lines 87-105): ownership check via
verify_judge_assignment (keeping its defaultdict side effect), then the winner
membership check (the source has no check that the two submitted ids differ),
then the engine update and the deletion of the judge entry. -/
def api_submit_pair (st : APIState) (judge : String) (l r w : ℕ) :
    Except ApiErr Unit × APIState :=
  if st.enabled = false then (Except.error ApiErr.notStarted, st)
  else
    let v := verify_judge_assignment st.judgeMap judge l r
    let st1 := { st with judgeMap := v.2 }
    if v.1 = false then (Except.error ApiErr.judgeDoesNotOwnPair, st1)
    else if w ≠ l ∧ w ≠ r then (Except.error ApiErr.incorrectPairFormat, st1)
    else
      (Except.ok (),
        { st1 with bdp := submit_comparison st1.bdp l r w,
                   judgeMap := ledgerErase st1.judgeMap judge })

/-- C8: an active session and an outstanding assignment [i, j] for a judge:
a non-forced get_pair returns exactly that pair and leaves the whole state
(engine alpha, frequency, RNG key, and the judge map) unchanged, so a second
non-forced call returns the same pair again. -/
theorem C8_get_pair_idempotent (R : RngModel) (st : APIState) (judge : String) (i j : ℕ)
    (hen : st.enabled = true) (hasg : ledgerLookup st.judgeMap judge = some [i, j]) :
    api_get_pair R st judge false = (Except.ok (i, j), st) ∧
    api_get_pair R (api_get_pair R st judge false).2 judge false = (Except.ok (i, j), st) := by
  have h1 : api_get_pair R st judge false = (Except.ok (i, j), st) := by
    simp [api_get_pair, hen, hasg]
  exact ⟨h1, by rw [h1]; exact h1⟩

/-- Witness for C8 at a concrete active state with the assignment [0, 1]. -/
theorem C8_get_pair_idempotent_witness :
    api_get_pair natRng ⟨true, freshEngine 2 0, [("J", [0, 1])]⟩ "J" false
      = (Except.ok (0, 1), ⟨true, freshEngine 2 0, [("J", [0, 1])]⟩) ∧
    api_get_pair natRng
        (api_get_pair natRng ⟨true, freshEngine 2 0, [("J", [0, 1])]⟩ "J" false).2 "J" false
      = (Except.ok (0, 1), ⟨true, freshEngine 2 0, [("J", [0, 1])]⟩) :=
  C8_get_pair_idempotent natRng ⟨true, freshEngine 2 0, [("J", [0, 1])]⟩ "J" 0 1 rfl (by decide)

/-- Amended submit_pair error characterization: ownership fails exactly when
the judge entry (empty when absent, with an empty entry inserted as a side
effect of the defaultdict lookup) does not contain both submitted ids;
InvalidPair fires exactly when ownership passes and the winner is neither id
(there is no check that the two ids differ); on any failure alpha and
frequency are unchanged and the judge map is unchanged except for the possible
empty-entry insertion. -/
def submitErrCharacterization (st : APIState) (judge : String) (a b w : ℕ) : Prop :=
  (((api_submit_pair st judge a b w).1 = Except.error ApiErr.judgeDoesNotOwnPair)
      ↔ ¬(a ∈ (ledgerLookup st.judgeMap judge).getD []
          ∧ b ∈ (ledgerLookup st.judgeMap judge).getD [])) ∧
  (((api_submit_pair st judge a b w).1 = Except.error ApiErr.incorrectPairFormat)
      ↔ ((a ∈ (ledgerLookup st.judgeMap judge).getD []
          ∧ b ∈ (ledgerLookup st.judgeMap judge).getD []) ∧ w ≠ a ∧ w ≠ b)) ∧
  (∀ e, (api_submit_pair st judge a b w).1 = Except.error e →
    (api_submit_pair st judge a b w).2.bdp = st.bdp ∧
    (api_submit_pair st judge a b w).2.judgeMap
      = (if (ledgerLookup st.judgeMap judge).isSome then st.judgeMap
         else ledgerSet st.judgeMap judge []))

/-- C4 counterexample: in an active session where judge J owns the pair [0, 1],
the degenerate submission with a = b = 0 and winner 0 is accepted instead of
failing with InvalidPair, so the claimed a = b check does not exist. -/
theorem C4_no_equal_ids_check :
    (api_submit_pair ⟨true, freshEngine 3 0, [("J", [0, 1])]⟩ "J" 0 0 0).1 = Except.ok ()
    ∧ (api_submit_pair ⟨true, freshEngine 3 0, [("J", [0, 1])]⟩ "J" 0 0 0).1
        ≠ Except.error ApiErr.incorrectPairFormat := by
  constructor
  · simp [api_submit_pair, verify_judge_assignment, ledgerLookup]
  · simp [api_submit_pair, verify_judge_assignment, ledgerLookup]

/-- C4 amended: the error behavior submit_pair actually has in an active
session. -/
theorem C4_submit_error_behavior (st : APIState) (judge : String) (a b w : ℕ)
    (hen : st.enabled = true) : submitErrCharacterization st judge a b w := by
  unfold submitErrCharacterization
  cases hl : ledgerLookup st.judgeMap judge with
  | none =>
    simp [api_submit_pair, verify_judge_assignment, hen, hl]
  | some entry =>
    by_cases hab : a ∈ entry ∧ b ∈ entry
    · by_cases hw : w ≠ a ∧ w ≠ b
      · simp [api_submit_pair, verify_judge_assignment, hen, hl, hab.1, hab.2, hw]
      · simp [api_submit_pair, verify_judge_assignment, hen, hl, hab.1, hab.2, hw,
          List.elem_iff]
    · have hcond : a ∈ entry → b ∉ entry := fun ha hb => hab ⟨ha, hb⟩
      have hfalse : (entry.contains a && entry.contains b) = false := by
        rcases Classical.em (a ∈ entry) with ha | ha
        · have hb := hcond ha
          simp [List.elem_iff, hb]
        · simp [List.elem_iff, ha]
      simp only [api_submit_pair, verify_judge_assignment, hen, hl, hfalse, hab]
      simp [hab]

/-- Witness for the amended C4 at a concrete active state. -/
theorem C4_submit_error_behavior_witness :
    submitErrCharacterization ⟨true, freshEngine 3 0, [("J", [0, 1])]⟩ "J" 0 1 1 :=
  C4_submit_error_behavior ⟨true, freshEngine 3 0, [("J", [0, 1])]⟩ "J" 0 1 1 rfl

/-! ## Rankings (app/main.py get_rankings, lines 107-112; BDPLoop.get_rankings) -/

/-- Contract of np.argsort with its default unstable quicksort: a
deterministic function of the input list that returns a permutation of the
index range along which the values are non-decreasing.  The order among tied
indices is left unspecified, because the quicksort is not stable and may
reorder equal elements once the array exceeds the small-sort cutoff. -/
structure ArgsortModel where
  argsort : List ℚ → List ℕ
  argsort_perm : ∀ l, List.Perm (argsort l) (List.range l.length)
  argsort_sorted : ∀ l, List.Pairwise (fun a b => l.getD a 0 ≤ l.getD b 0) (argsort l)

/-- Index comparison for the small-array regime of np.argsort: ascending
value, ties by ascending position. -/
def argsortRel (alpha : List ℚ) (a b : ℕ) : Prop :=
  alpha.getD a 0 < alpha.getD b 0 ∨ (alpha.getD a 0 = alpha.getD b 0 ∧ a ≤ b)

instance argsortRelDecidable (alpha : List ℚ) : DecidableRel (argsortRel alpha) :=
  fun _ _ => by unfold argsortRel; infer_instance

instance argsortRelTotal (alpha : List ℚ) : IsTotal ℕ (argsortRel alpha) where
  total a b := by
    unfold argsortRel
    rcases lt_trichotomy (alpha.getD a 0) (alpha.getD b 0) with h | h | h
    · exact Or.inl (Or.inl h)
    · rcases Nat.le_total a b with hab | hab
      · exact Or.inl (Or.inr ⟨h, hab⟩)
      · exact Or.inr (Or.inr ⟨h.symm, hab⟩)
    · exact Or.inr (Or.inl h)

instance argsortRelTrans (alpha : List ℚ) : IsTrans ℕ (argsortRel alpha) where
  trans a b c hab hbc := by
    unfold argsortRel at hab hbc ⊢
    rcases hab with h1 | ⟨h1, h1'⟩ <;> rcases hbc with h2 | ⟨h2, h2'⟩
    · exact Or.inl (h1.trans h2)
    · exact Or.inl (h2 ▸ h1)
    · exact Or.inl (h1 ▸ h2)
    · exact Or.inr ⟨h1.trans h2, h1'.trans h2'⟩

/-- Stable ascending argsort.  numpy sorts arrays below the small-sort cutoff
(about 16 elements) by insertion sort, so on such inputs this is exactly what
np.argsort returns; above the cutoff the real quicksort may reorder ties. -/
def smallArgsort (alpha : List ℚ) : List ℕ :=
  (List.range alpha.length).insertionSort (argsortRel alpha)

theorem smallArgsort_perm (alpha : List ℚ) :
    List.Perm (smallArgsort alpha) (List.range alpha.length) :=
  List.perm_insertionSort _ _

theorem smallArgsort_sorted (alpha : List ℚ) :
    List.Pairwise (fun a b => alpha.getD a 0 ≤ alpha.getD b 0) (smallArgsort alpha) := by
  refine (List.sorted_insertionSort (argsortRel alpha) _).imp ?_
  rintro a b (h | ⟨h, _⟩)
  · exact le_of_lt h
  · exact le_of_eq h

/-- The small-array instance of the argsort contract. -/
def smallArgsortModel : ArgsortModel :=
  { argsort := smallArgsort, argsort_perm := smallArgsort_perm,
    argsort_sorted := smallArgsort_sorted }

/-- JudgingAPI.get_rankings (main.py lines 107-112): np.flip(np.argsort(alpha)),
here as the list of entity indices (BDPLoop.get_rankings computes the same
reversed argsort), over any realization of the np.argsort contract. -/
def get_rankings (A : ArgsortModel) (alpha : List ℚ) : List ℕ :=
  (A.argsort alpha).reverse

/-- C5 counterexample: a three-element array is inside the regime where
np.argsort is an insertion sort, so on the all-ones alpha of a fresh
three-item engine the rankings are exactly [2, 1, 0], which is not sorted
with ties broken by ascending index (that order would be [0, 1, 2]). -/
theorem C5_ties_descend_counterexample :
    get_rankings smallArgsortModel [1, 1, 1] = [2, 1, 0] ∧
    ¬ List.Pairwise (fun u v => ([1, 1, 1] : List ℚ).getD u 0 > ([1, 1, 1] : List ℚ).getD v 0
        ∨ (([1, 1, 1] : List ℚ).getD u 0 = ([1, 1, 1] : List ℚ).getD v 0 ∧ u < v))
      (get_rankings smallArgsortModel [1, 1, 1]) := by
  constructor
  · decide
  · decide

/-- C5 amended: under any realization of the np.argsort contract, get_rankings
is a permutation of the indices [0, K) along which alpha is non-increasing;
the order among tied indices is whatever the unstable sort produces (reversed)
and in particular not ascending index; and it is a deterministic pure function
of the state, so two calls on the same state agree. -/
theorem C5_rankings_permutation (A : ArgsortModel) (alpha : List ℚ) :
    List.Perm (get_rankings A alpha) (List.range alpha.length) ∧
    List.Pairwise (fun u v => alpha.getD v 0 ≤ alpha.getD u 0) (get_rankings A alpha) ∧
    get_rankings A alpha = get_rankings A alpha := by
  refine ⟨(List.reverse_perm _).trans (A.argsort_perm alpha), ?_, rfl⟩
  exact List.pairwise_reverse.mpr (A.argsort_sorted alpha)

/-! ## Concrete scenario: one comparison from the fresh K = 3 engine (C6) -/

/-- C6 counterexample: from a fresh K = 3 engine, submitting pair (0, 1) with
winner 1 rescales every entry: the uninvolved alpha_2 becomes 27/23, not 1. -/
theorem C6_uninvolved_entry_changes :
    (submit_comparison (freshEngine 3 0) 0 1 1).alpha_t.getD 2 0 ≠ 1 := by
  norm_num [submit_comparison, MM, MMC, MMD, mmSprime, mmDenom, freshEngine, List.getD,
    List.replicate]

/-- C6 amended: after that submission the new alpha is [18/23, 36/23, 27/23]:
alpha_1 > alpha_0 holds, and the uninvolved entry has moved to 27/23. -/
theorem C6_winner_rises_uninvolved_rescaled :
    (submit_comparison (freshEngine 3 0) 0 1 1).alpha_t.getD 0 0
      < (submit_comparison (freshEngine 3 0) 0 1 1).alpha_t.getD 1 0 ∧
    (submit_comparison (freshEngine 3 0) 0 1 1).alpha_t.getD 2 0 = 27 / 23 := by
  constructor
  · norm_num [submit_comparison, MM, MMC, MMD, mmSprime, mmDenom, freshEngine, List.getD,
      List.replicate]
  · norm_num [submit_comparison, MM, MMC, MMD, mmSprime, mmDenom, freshEngine, List.getD,
      List.replicate]

/-! ## Numeric guards (C7) -/

/-- C7 counterexample: BDPVectorized.MM has no numeric guards.  On
alpha = [-1, -2] the sum is negative and the scale factor is negative, yet the
update still replaces alpha with [-1, -1]. -/
theorem C7_vectorized_update_not_skipped :
    (([-1, -2] : List ℚ).sum ≤ 0) ∧ mmSprime [-1, -2] 0 1 (-1) ≤ 0 ∧
    MM [-1, -2] 0 1 (-1) = [-1, -1] ∧ MM [-1, -2] 0 1 (-1) ≠ [-1, -2] := by
  refine ⟨by norm_num, ?_, ?_, ?_⟩
  · norm_num [mmSprime, mmDenom, MMC, MMD, List.getD]
  · norm_num [MM, MMC, MMD, mmSprime, mmDenom, List.getD]
  · norm_num [MM, MMC, MMD, mmSprime, mmDenom, List.getD]

/-- C7 amended: the guards hold for BDPLoop.MM: whenever the alpha sum is not
positive, the denominator is below 1e-14 in absolute value, or the scale
factor is not positive, the loop engine returns alpha unchanged.  The
vectorized engine used by the app applies the update unconditionally. -/
theorem C7_loop_guards_skip_update (alpha : List ℚ) (i j : ℕ) (Y : ℚ)
    (h : alpha.sum ≤ 0 ∨ |mmDenom alpha i j Y| < 1 / 10 ^ 14 ∨ mmSprime alpha i j Y ≤ 0) :
    loopMM alpha i j Y = alpha := by
  unfold loopMM
  by_cases h1 : alpha.sum ≤ 0
  · rw [if_pos h1]
  · rw [if_neg h1]
    by_cases h2 : |mmDenom alpha i j Y| < 1 / 10 ^ 14
    · rw [if_pos h2]
    · rw [if_neg h2]
      by_cases h3 : mmSprime alpha i j Y ≤ 0
      · rw [if_pos h3]
      · rcases h with h | h | h <;> contradiction

/-- Witness for the amended C7 at alpha = [-1, -2], whose sum is negative. -/
theorem C7_loop_guards_skip_update_witness : loopMM [-1, -2] 0 1 (-1) = [-1, -2] :=
  C7_loop_guards_skip_update [-1, -2] 0 1 (-1) (Or.inl (by norm_num))

/-! ## Snapshot store (app/adapters.py SnapshotAdapter, C9) -/

/-- A row of the snapshots table: timestamp plus the serialized judge map and
engine state. -/
structure SnapshotRow where
  timestamp : ℕ
  judge_map : Ledger
  bdp : BDPState
  deriving DecidableEq

/-- SnapshotAdapter.snapshot (adapters.py lines 138-153): a plain INSERT into
the snapshots table.  The adapter has no retention constant and no deletion of
older rows. -/
def snapshotWrite (store : List SnapshotRow) (row : SnapshotRow) : List SnapshotRow :=
  store ++ [row]

theorem foldl_snapshotWrite_length (rows : List SnapshotRow) :
    ∀ store : List SnapshotRow,
      (rows.foldl snapshotWrite store).length = store.length + rows.length := by
  induction rows with
  | nil => intro store; simp
  | cons row rest ih =>
    intro store
    simp only [List.foldl_cons, ih, snapshotWrite]
    simp
    omega

/-- C9 counterexample: seventeen consecutive writes leave seventeen stored
snapshots, exceeding the claimed cap of sixteen, so no eviction takes place. -/
theorem C9_seventeen_snapshots_survive :
    (((List.range 17).map (fun t => SnapshotRow.mk t [] (freshEngine 2 0))).foldl
        snapshotWrite []).length = 17 ∧ ¬ (17 ≤ 16) := by
  constructor
  · rw [foldl_snapshotWrite_length]
    simp
  · decide

/-- C9 amended: every snapshot write appends exactly one row and evicts
nothing, so after n writes from an empty store exactly n snapshots are
retained; the store is unbounded and there is no MAX_SNAPSHOTS cap. -/
theorem C9_snapshot_store_unbounded (store : List SnapshotRow) (row : SnapshotRow) :
    (snapshotWrite store row).length = store.length + 1 ∧
    (∀ rows : List SnapshotRow, (rows.foldl snapshotWrite []).length = rows.length) := by
  constructor
  · simp [snapshotWrite]
  · intro rows
    rw [foldl_snapshotWrite_length]
    simp

/-! ## Loop engine versus vectorized engine outcome convention (C10) -/

/-- C10: with positive alpha, a valid pair, and no BDPLoop numeric guard
firing, BDPLoop.submit_comparison with is_right_win = true and
BDPVectorized.submit_comparison with winner = i both apply the MM update with
Y = +1 and produce the same new alpha, so the two engines attach opposite
meanings to the same observed outcome. -/
theorem C10_opposite_outcome_conventions (s : BDPState) (i j : ℕ)
    (hpos : ∀ a ∈ s.alpha_t, 0 < a) (hi : i < s.alpha_t.length)
    (hj : j < s.alpha_t.length) (hij : i ≠ j)
    (hd : ¬ |mmDenom s.alpha_t i j 1| < 1 / 10 ^ 14)
    (hs : ¬ mmSprime s.alpha_t i j 1 ≤ 0) :
    loop_submit_comparison s.alpha_t i j true = MM s.alpha_t i j 1 ∧
    (submit_comparison s i j i).alpha_t = MM s.alpha_t i j 1 := by
  have hne : s.alpha_t ≠ [] := by
    intro h
    rw [h] at hi
    simp at hi
  have hsum : 0 < s.alpha_t.sum := List.sum_pos _ hpos hne
  constructor
  · show loopMM s.alpha_t i j 1 = MM s.alpha_t i j 1
    unfold loopMM
    rw [if_neg (not_le.mpr hsum), if_neg hd, if_neg hs]
  · simp [submit_comparison]

/-- Witness for C10 at the two-item state with alpha = [1, 1]. -/
theorem C10_opposite_outcome_conventions_witness :
    loop_submit_comparison (BDPState.mk 2 [1, 1] [0, 0] 0).alpha_t 0 1 true
      = MM (BDPState.mk 2 [1, 1] [0, 0] 0).alpha_t 0 1 1 ∧
    (submit_comparison (BDPState.mk 2 [1, 1] [0, 0] 0) 0 1 0).alpha_t
      = MM (BDPState.mk 2 [1, 1] [0, 0] 0).alpha_t 0 1 1 :=
  C10_opposite_outcome_conventions (BDPState.mk 2 [1, 1] [0, 0] 0) 0 1
    (by decide) (by decide) (by decide) (by decide)
    (by
      have hval : mmDenom (BDPState.mk 2 [1, 1] [0, 0] 0).alpha_t 0 1 1 = -(1 / 9) := by
        norm_num [mmDenom, MMC, MMD, List.getD]
      rw [hval, abs_neg, abs_of_pos (by norm_num : (0 : ℚ) < 1 / 9)]
      norm_num)
    (by norm_num [mmSprime, mmDenom, MMC, MMD, List.getD])
